import Mathlib

/-
Verification of hyperspy/_signals/lazy.py (LazySignal).

Shallow embedding of the chunk planner (_get_dask_chunks), the masked block
iterator (_block_iterator), the blockwise map engine (_map_iterate), the
materialization routine (compute) and the decomposition pipeline
(decomposition), together with theorems about the frozen claims.

Machine-arithmetic note: the Python code mixes ints and floats.  All the
quantities involved (axis sizes, chunk sizes, byte budgets) are integers far
below 2 to the 53, and every float operation performed on them
(np.floor(x / 2), np.ceil(n / s), int(104857600.0 / w), blocksize /
output_dimension compared with an integer) is exact or rounds to the same
integer as the corresponding exact rational operation, so they are modelled
with Nat floor/ceiling division.
-/

namespace HyperspyLazy

/-! ### Generic list helpers -/

/-- Largest element of a list of naturals (0 for the empty list). -/
def listMax (l : List Nat) : Nat := l.foldr max 0

/-- Smallest element of a nonempty list of naturals; models np.min. -/
def listMin : List Nat → Nat
  | [] => 0
  | x :: xs => xs.foldl min x

/-- First index of the maximal element; models np.argmax (which returns the
first occurrence of the maximum). -/
def argmaxIdx : List Nat → Nat
  | [] => 0
  | x :: xs => if listMax xs ≤ x then 0 else argmaxIdx xs + 1

/-- Ceiling division on naturals; models np.ceil(n / s) for positive integers
held in floats. -/
def ceilDiv (n s : Nat) : Nat := (n + s - 1) / s

/-- Cartesian product of a list of lists, in itertools.product order (the
rightmost factor varies fastest). -/
def cartProd {α : Type} : List (List α) → List (List α)
  | [] => [[]]
  | xs :: rest => xs.flatMap (fun x => (cartProd rest).map (x :: ·))

/-! ### ChunkPlanner: LazySignal._get_dask_chunks (lazy.py lines 200-274) -/

/-- Product of a list; models hyperspy.misc.utils.multiply applied to a list
of integer sizes. -/
def hsMultiply (l : List Nat) : Nat := l.prod

/-- The fixed block-footprint budget of 100 MiB in bytes: 100 * 2 ** 20. -/
def budgetBytes : Nat := 104857600

/-- One iteration of the halving loop body:
sizes[np.argmax(sizes)] = np.floor(sizes[argmax] / 2). -/
def halveStep (sizes : List Nat) : List Nat :=
  sizes.set (argmaxIdx sizes) (sizes.getD (argmaxIdx sizes) 0 / 2)

/-- The halving loop of _get_dask_chunks: while multiply(sizes) >
num_that_fit, halve the currently largest entry.  The loop is modelled with
explicit fuel; the callers pass fuel = sizes.sum + 1, which is enough for
the loop to reach its exit condition (proved below). -/
def halveLoop : Nat → Nat → List Nat → List Nat
  | 0, _, sizes => sizes
  | fuel + 1, budget, sizes =>
    if hsMultiply sizes ≤ budget then sizes
    else halveLoop fuel budget (halveStep sizes)

/-- Chunk lengths produced by np.array_split(np.arange(n), k): n mod k
pieces of length n / k + 1 followed by k - n mod k pieces of length n / k. -/
def arraySplitLens (n k : Nat) : List Nat :=
  List.replicate (n % k) (n / k + 1) ++ List.replicate (k - n % k) (n / k)

/-- One array axis as the planner sees it: its size and whether it belongs to
need_axes (the axes that must stay whole, i.e. the signal axes or the axes
passed explicitly).  The list position of an axis plays the role of
index_in_array. -/
structure AxisInfo where
  size : Nat
  keep : Bool
deriving DecidableEq, Repr

/-- Second phase of _get_dask_chunks: walk the axes in array order; a kept
axis becomes the single chunk (size,), a free axis of size n with
post-halving target f becomes np.array_split(np.arange(n), np.ceil(n / f)).
The free targets fs are consumed in order, mirroring
sizes[indices.index(i)].  The fs = [] fallback for a free axis is
unreachable because the halving loop preserves the length of sizes. -/
def buildChunks : List AxisInfo → List Nat → List (List Nat)
  | [], _ => []
  | a :: rest, fs =>
    if a.keep then [a.size] :: buildChunks rest fs
    else
      match fs with
      | f :: fsTail => arraySplitLens a.size (ceilDiv a.size f) :: buildChunks rest fsTail
      | [] => [] :: buildChunks rest []

/-- LazySignal._get_dask_chunks.  typesize models
max(dtype.itemsize, dc.dtype.itemsize).  Returns the per-axis tuples of
chunk lengths. -/
def _get_dask_chunks (axes : List AxisInfo) (typesize : Nat) : List (List Nat) :=
  let wantToKeep := hsMultiply ((axes.filter (·.keep)).map (·.size)) * typesize
  let numThatFit := budgetBytes / wantToKeep
  if numThatFit < 2 then
    axes.map (fun a => if a.keep then [a.size] else List.replicate a.size 1)
  else
    let freeSizes := (axes.filter (fun a => !a.keep)).map (·.size)
    let finalSizes := halveLoop (freeSizes.sum + 1) numThatFit freeSizes
    buildChunks axes finalSizes

/-- Product, over the free (not kept whole) axes, of the largest chunk
length the planner assigned to that axis: the element count of the largest
block footprint restricted to the free axes. -/
def freeMaxProd (axes : List AxisInfo) (chunks : List (List Nat)) : Nat :=
  hsMultiply (((axes.zip chunks).filter (fun p => !p.1.keep)).map (fun p => listMax p.2))

/-! ### MaskedBlockIterator: LazySignal._block_iterator (lazy.py lines 702-779)

The data has been rechunked (self._make_lazy()) so that the signal axes form
a single chunk, and reshaped to navigation_shape + (signal_size,).  A block
is addressed by one chunk index per navigation dimension; the block holds
the rows of all navigation positions falling in the corresponding box, in
row-major order, each row being the flattened signal vector of that
position.  navChunks lists, per navigation dimension, the chunk lengths
(data.chunks restricted to the navigation dimensions); positions are
absolute multi-indices. -/

/-- Per-dimension index segments of a chunking: chunk j of a dimension with
chunk lengths c covers the indices of the j-th segment, all segments
starting at the accumulated offset. -/
def segmentsFrom (start : Nat) : List Nat → List (List Nat)
  | [] => []
  | l :: rest => (List.range l).map (· + start) :: segmentsFrom (start + l) rest

/-- The chunk-index tuples iterated over:
product(*[range(len(c)) for c in nav_chunks]). -/
def blockIndices (navChunks : List (List Nat)) : List (List Nat) :=
  cartProd (navChunks.map (fun c => List.range c.length))

/-- The navigation positions (absolute multi-indices, row-major order)
contained in the block addressed by chunk-index tuple ind. -/
def blockBox (navChunks : List (List Nat)) (ind : List Nat) : List (List Nat) :=
  cartProd ((navChunks.zip ind).map (fun p => (segmentsFrom 0 p.1).getD p.2 []))

/-- All navigation positions of the signal, in row-major order. -/
def fullGrid (navChunks : List (List Nat)) : List (List Nat) :=
  cartProd (navChunks.map (fun c => List.range c.sum))

/-- The navigation mask as a predicate on positions: True means masked
(excluded).  An absent mask masks nothing (da.zeros(..., dtype=bool)). -/
def navMaskFn (navigation_mask : Option (List Nat → Bool)) : List Nat → Bool :=
  match navigation_mask with
  | none => fun _ => false
  | some m => m

/-- The per-column keep flags used by the flat mode.  With no signal mask
the column selector is slice(None), keeping every column; with a mask m the
code inverts it (signal_mask = ~signal_mask), keeping the columns where m is
False. -/
def sigKeepFlags (signal_mask : Option (List Bool)) (signalSize : Nat) : List Bool :=
  match signal_mask with
  | none => List.replicate signalSize true
  | some m => m.map (!·)

/-- Column selection chunk[..., signal_mask] on one row. -/
def applyRowMask {α : Type} (row : List α) (keep : List Bool) : List α :=
  ((row.zip keep).filter (·.2)).map (·.1)

/-- The flat mode of _block_iterator (flat_signal=True): for every block, in
chunk-index product order, yield the block restricted (by
chunk[n_mask, ...][..., signal_mask]) to its unmasked navigation rows and
unmasked signal columns.  data gives the flattened signal row of every
navigation position. -/
def _block_iterator_flat {α : Type} (navChunks : List (List Nat)) (signalSize : Nat)
    (navigation_mask : Option (List Nat → Bool)) (signal_mask : Option (List Bool))
    (data : List Nat → List α) : List (List (List α)) :=
  (blockIndices navChunks).map (fun ind =>
    ((blockBox navChunks ind).filter (fun p => !navMaskFn navigation_mask p)).map
      (fun p => applyRowMask (data p) (sigKeepFlags signal_mask signalSize)))

/-- Total number of elements over all yielded chunks. -/
def totalElems {α : Type} (yields : List (List (List α))) : Nat :=
  (yields.map (fun rows => (rows.map List.length).sum)).sum

/-- Number of unmasked navigation positions of the whole signal. -/
def unmaskedNavCount (navChunks : List (List Nat))
    (navigation_mask : Option (List Nat → Bool)) : Nat :=
  (fullGrid navChunks).countP (fun p => !navMaskFn navigation_mask p)

/-- Number of unmasked signal positions. -/
def unmaskedSigCount (signal_mask : Option (List Bool)) (signalSize : Nat) : Nat :=
  match signal_mask with
  | none => signalSize
  | some m => m.countP (fun b => !b)

/-- Values seen in a dense-mode block: an original data element, the NaN
sentinel, or the zero fill used when the block dtype cannot hold NaN. -/
inductive DenseVal (α : Type) where
  | orig (a : α)
  | nan
  | zero
deriving DecidableEq, Repr

/-- The fill value of the dense mode:
np.nan if np.can_cast(float, chunk.dtype) else 0. -/
def denseFill (α : Type) (canCastFloat : Bool) : DenseVal α :=
  if canCastFloat then DenseVal.nan else DenseVal.zero

/-- The dense-mode signal mask row: with no mask nothing is masked
(np.zeros(signal_size, dtype=bool)); with a mask it is used as given (no
inversion in dense mode). -/
def denseSigMask (signal_mask : Option (List Bool)) (signalSize : Nat) : List Bool :=
  match signal_mask with
  | none => List.replicate signalSize false
  | some m => m

/-- The dense mode of _block_iterator (flat_signal=False): every block keeps
its shape; the block is copied, then the masked navigation rows are
overwritten with the fill value (chunk[n_mask, ...] = value), then the
masked signal columns are overwritten with the fill value
(chunk[..., signal_mask] = value).  The final reshape of the signal
dimension to signal_shape is a pure shape change and is left implicit: rows
stay flattened to length signalSize. -/
def _block_iterator_dense {α : Type} (navChunks : List (List Nat)) (signalSize : Nat)
    (navigation_mask : Option (List Nat → Bool)) (signal_mask : Option (List Bool))
    (canCastFloat : Bool) (data : List Nat → Nat → α) : List (List (List (DenseVal α))) :=
  let fill := denseFill α canCastFloat
  let smask := denseSigMask signal_mask signalSize
  (blockIndices navChunks).map (fun ind =>
    let box := blockBox navChunks ind
    let chunk := box.map (fun p =>
      ((List.range signalSize).map (fun j => DenseVal.orig (data p j)), navMaskFn navigation_mask p))
    let chunk1 := chunk.map (fun rc => if rc.2 then List.replicate signalSize fill else rc.1)
    chunk1.map (fun row => (row.zip smask).map (fun e => if e.2 then fill else e.1)))

/-! ### DecompositionPipeline: LazySignal.decomposition (lazy.py lines 781-1102)

The pipeline is modelled as a state transformer tracking the array object
held in self.data, the _unfolded4decomposition attribute, the exception (if
any) with which the call exits, the ordered trace of the data-related
operations performed, and whether the learning results were committed.
External collaborators (dask, sklearn, the estimators) are oracles: boolean
configuration fields say whether sklearn is installed, whether unfold()
actually unfolds, and whether the svd / fit / project calls raise. -/

/-- Abstract array-object references: each dask operation that rebinds
self.data produces a distinct new object from its input. -/
inductive DRef where
  | base (id : Nat)
  | normalized (d : DRef)
  | unfoldedRef (d : DRef)
  | foldedRef (d : DRef)
  | materialized (d : DRef)
  | mapped (d : DRef)
deriving DecidableEq, Repr

/-- Python exception classes observed on the modelled paths. -/
inductive PyErr where
  | valueError
  | importError
  | notImplementedError
  | runtimeError
deriving DecidableEq, Repr

/-- Data-related events of a decomposition run, in program order. -/
inductive DEv where
  | readData
  | computeSums
  | unfoldCall
  | foldCall
  | svdCall
  | learnStream
  | projectStream
deriving DecidableEq, Repr

/-- Decomposition algorithm tag. -/
inductive Alg where
  | SVD
  | PCA
  | ORPCA
  | ORNMF
  | ONMF
  | unknown
deriving DecidableEq, Repr

/-- The attributes of the signal that decomposition can touch. -/
structure DecState where
  data : DRef
  unfolded4decomposition : Bool
deriving DecidableEq, Repr

/-- Result of a decomposition call: final attribute state, the exception the
call exits with (none = normal return), the event trace, and whether the
learning results were written. -/
structure DecOut where
  state : DecState
  err : Option PyErr
  trace : List DEv
  committed : Bool
deriving DecidableEq, Repr

/-- Arguments and oracles of one decomposition call. -/
structure DecCfg where
  algorithm : Alg
  normalize_poissonian_noise : Bool
  output_dimension : Option Nat
  navigation_mask : Bool
  signal_mask : Bool
  num_chunks : Option Nat
  reproject : Bool
  navChunks : List (List Nat)
  sklearnInstalled : Bool
  unfoldReturns : Bool
  svdRaises : Bool
  fitRaises : Bool
  projectRaises : Bool
deriving DecidableEq, Repr

/-- blocksize = np.min([multiply(ar) for ar in product(*nav_chunks)]): the
smallest number of navigation positions of any block. -/
def minBlockProd (navChunks : List (List Nat)) : Nat :=
  listMin ((cartProd navChunks).map (fun sel => hsMultiply sel))

/-- The num_chunks adjustment (lazy.py lines 879-884):
num_chunks = 1 if num_chunks is None else num_chunks, and if
output_dimension is truthy and blocksize / output_dimension < num_chunks
then num_chunks = np.ceil(blocksize / output_dimension).  The float
comparison blocksize / d < nc is the exact rational comparison
blocksize < nc * d. -/
def adjustNumChunks (blocksize : Nat) (output_dimension : Option Nat)
    (num_chunks : Option Nat) : Nat :=
  let nc := num_chunks.getD 1
  match output_dimension with
  | none => nc
  | some d => if 0 < d ∧ blocksize < nc * d then ceilDiv blocksize d else nc

/-- The body of the outer try of decomposition (lazy.py lines 924-1081):
optional Poissonian-noise normalization that rebinds self.data to the
rescaled array, then the learn phase (SVD with its inner try/finally around
unfold/fold, or the streaming estimators), extraction, optional
reprojection, and the reshuffle whose ValueError is swallowed.  Returns the
state at the end of the body, the escaping exception if any, and the trace.
Note the inner finally reproduces the source verbatim: it calls self.fold()
when _unfolded4decomposition is True, and the following statement
(self._unfolded4decomposition is False) is a comparison, not an assignment,
so the flag is never reset. -/
def decompBody (alg : Alg) (c : DecCfg) (s : DecState) :
    DecState × Option PyErr × List DEv :=
  let (s1, trN) :=
    if c.normalize_poissonian_noise then
      ({ s with data := DRef.normalized s.data }, [DEv.readData, DEv.computeSums])
    else (s, ([] : List DEv))
  if alg = Alg.SVD then
    let s2 : DecState :=
      { s1 with unfolded4decomposition := c.unfoldReturns,
                data := if c.unfoldReturns then DRef.unfoldedRef s1.data else s1.data }
    let (errB, trB) : Option PyErr × List DEv :=
      if c.navigation_mask ∨ c.signal_mask then (some PyErr.notImplementedError, [])
      else if c.svdRaises then (some PyErr.runtimeError, [DEv.svdCall])
      else (none, [DEv.svdCall])
    let (s3, trF) :=
      if s2.unfolded4decomposition then
        ({ s2 with data := DRef.foldedRef s2.data }, [DEv.foldCall])
      else (s2, ([] : List DEv))
    (s3, errB, trN ++ DEv.unfoldCall :: trB ++ trF)
  else
    let (errL, trL) : Option PyErr × List DEv :=
      if c.fitRaises then (some PyErr.runtimeError, [DEv.learnStream])
      else (none, [DEv.learnStream])
    match errL with
    | some e => (s1, some e, trN ++ trL)
    | none =>
      let reproj := if alg = Alg.PCA then true else c.reproject
      let (errP, trP) : Option PyErr × List DEv :=
        if reproj then
          if c.projectRaises then (some PyErr.runtimeError, [DEv.projectStream])
          else (none, [DEv.projectStream])
        else (none, [])
      match errP with
      | some e => (s1, some e, trN ++ trL ++ trP)
      | none => (s1, none, trN ++ trL ++ trP)

/-- LazySignal.decomposition.  Follows the source order: deprecation rename
of ONMF, the output_dimension configuration check (before any access to
self.data), the read of self._data_aligned_with_axes and the chunk/blocksize
arithmetic, the estimator setup with its ImportError and unrecognized
algorithm ValueError, the capture of original_data, the guarded body, the
finally that rebinds self.data to original_data on every exit, and the
commit of the learning results on normal return. -/
def decomposition (c : DecCfg) (s : DecState) : DecOut :=
  let alg := if c.algorithm = Alg.ONMF then Alg.ORNMF else c.algorithm
  if (alg = Alg.PCA ∨ alg = Alg.ORPCA ∨ alg = Alg.ORNMF) ∧ c.output_dimension = none then
    { state := s, err := some PyErr.valueError, trace := [], committed := false }
  else
    let tr0 : List DEv := [DEv.readData]
    let _blocksize := minBlockProd c.navChunks
    let _numChunksUsed := adjustNumChunks _blocksize c.output_dimension c.num_chunks
    if alg = Alg.PCA ∧ ¬ c.sklearnInstalled then
      { state := s, err := some PyErr.importError, trace := tr0, committed := false }
    else if ¬ (alg = Alg.PCA ∨ alg = Alg.ORPCA ∨ alg = Alg.ORNMF ∨ alg = Alg.SVD) then
      { state := s, err := some PyErr.valueError, trace := tr0, committed := false }
    else
      let original_data := s.data
      let (s1, err1, tr1) := decompBody alg c s
      let s2 := { s1 with data := original_data }
      match err1 with
      | some e => { state := s2, err := some e, trace := tr0 ++ tr1, committed := false }
      | none => { state := s2, err := none, trace := tr0 ++ tr1, committed := true }

/-! ### LazyDataAccessor: LazySignal.compute (lazy.py lines 93-131) -/

/-- The attributes of the signal that compute touches. -/
structure LazySigState where
  data : DRef
  lazyFlag : Bool
  fileOpen : Bool
deriving DecidableEq, Repr

/-- Events of a compute call. -/
inductive CEv where
  | materializeEv
  | closeFileEv
deriving DecidableEq, Repr

/-- LazySignal.compute: data = self.data.compute() materializes the dask
array into memory; then, only if close_file, self.close_file() releases the
backing handle; then self.data = data and self._lazy = False. -/
def computeCall (close_file : Bool) (s : LazySigState) : LazySigState × List CEv :=
  let data := DRef.materialized s.data
  let (s1, tr1) :=
    if close_file then ({ s with fileOpen := false }, [CEv.closeFileEv])
    else (s, ([] : List CEv))
  ({ s1 with data := data, lazyFlag := false }, CEv.materializeEv :: tr1)

/-! ### BlockwiseMapEngine: LazySignal._map_iterate (lazy.py lines 580-700) -/

/-- Events of a _map_iterate call. -/
inductive MEv where
  | rechunkSelfEv
  | rechunkKwargEv
  | probeEv
  | mapBlocksEv
deriving DecidableEq, Repr

/-- Arguments and oracles of one _map_iterate call. -/
structure MapCfg where
  ragged : Bool
  inplace : Bool
  chunkSpanSignal : Bool
  lazyKwargsToRechunk : Nat
  autodetermine : Bool
deriving DecidableEq, Repr

/-- Result of a _map_iterate call. -/
structure MapOut where
  data : DRef
  err : Option PyErr
  trace : List MEv
deriving DecidableEq, Repr

/-- LazySignal._map_iterate, at the granularity of its data operations:
after the keyword unpacking and the navigation-index lookup (pure), the
ragged/inplace ValueError is raised; only then does the engine rechunk a
copy of the signal when a signal dimension is split across chunks
(chunkSpanSignal false), rechunk the lazy keyword signals, probe one
representative chunk when the output shape or dtype was not supplied
(autodetermine), and call da.map_blocks, storing the result in self.data
when inplace. -/
def _map_iterate (c : MapCfg) (d : DRef) : MapOut :=
  if c.ragged ∧ c.inplace then
    { data := d, err := some PyErr.valueError, trace := [] }
  else
    let trSelf : List MEv := if c.chunkSpanSignal then [] else [MEv.rechunkSelfEv]
    let trKw : List MEv := List.replicate c.lazyKwargsToRechunk MEv.rechunkKwargEv
    let trProbe : List MEv := if c.autodetermine then [MEv.probeEv] else []
    let mappedData := DRef.mapped d
    { data := if c.inplace then mappedData else d,
      err := none,
      trace := trSelf ++ trKw ++ trProbe ++ [MEv.mapBlocksEv] }

/-! ## Theorems -/

/-! ### ChunkPlanner: list lemmas for the halving loop and the splitter -/

theorem listMax_le_iff {l : List Nat} {b : Nat} : listMax l ≤ b ↔ ∀ x ∈ l, x ≤ b := by
  induction l with
  | nil => simp [listMax]
  | cons x xs ih => simp [listMax, Nat.max_le] at ih ⊢; tauto

theorem le_listMax_of_mem {l : List Nat} {x : Nat} (h : x ∈ l) : x ≤ listMax l :=
  listMax_le_iff.mp (Nat.le_refl _) x h

theorem argmaxIdx_lt_length {l : List Nat} (h : l ≠ []) : argmaxIdx l < l.length := by
  induction l with
  | nil => simp at h
  | cons x xs ih =>
    unfold argmaxIdx
    split
    · simp
    · rcases xs with _ | ⟨y, ys⟩
      · simp [listMax] at *
      · have := ih (by simp)
        simpa using Nat.succ_lt_succ this

theorem listMax_cons (x : Nat) (xs : List Nat) :
    listMax (x :: xs) = max x (listMax xs) := rfl

theorem getD_argmaxIdx (l : List Nat) : l.getD (argmaxIdx l) 0 = listMax l := by
  induction l with
  | nil => simp [argmaxIdx, listMax]
  | cons x xs ih =>
    unfold argmaxIdx
    split
    · rename_i h
      simp only [List.getD_cons_zero, listMax_cons]
      omega
    · rename_i h
      push_neg at h
      simp only [List.getD_cons_succ, ih, listMax_cons]
      omega

theorem sum_set_add (l : List Nat) (i a : Nat) (hi : i < l.length) :
    (l.set i a).sum + l.getD i 0 = l.sum + a := by
  induction l generalizing i with
  | nil => simp at hi
  | cons x xs ih =>
    cases i with
    | zero => simp [List.sum_cons]; omega
    | succ n =>
      simp only [List.set_cons_succ, List.sum_cons, List.getD_cons_succ]
      have := ih n (by simpa using hi)
      omega

theorem halveStep_sum_lt {l : List Nat} (h : 1 ≤ listMax l) :
    (halveStep l).sum < l.sum := by
  have hne : l ≠ [] := by
    intro he; rw [he] at h; simp [listMax] at h
  have hlt := argmaxIdx_lt_length hne
  have hget := getD_argmaxIdx l
  have hs := sum_set_add l (argmaxIdx l) (l.getD (argmaxIdx l) 0 / 2) hlt
  unfold halveStep
  rw [hget] at hs ⊢
  omega

theorem prod_le_one_of_all_le_one {l : List Nat} (h : ∀ x ∈ l, x ≤ 1) : l.prod ≤ 1 := by
  induction l with
  | nil => simp
  | cons x xs ih =>
    have hx := h x (by simp)
    have := ih (fun y hy => h y (by simp [hy]))
    calc (x :: xs).prod = x * xs.prod := by simp
      _ ≤ 1 * 1 := Nat.mul_le_mul hx this
      _ = 1 := by simp

theorem listMax_ge_two_of_prod {l : List Nat} (h : 2 ≤ l.prod) : 2 ≤ listMax l := by
  by_contra hc
  push_neg at hc
  have : ∀ x ∈ l, x ≤ 1 := fun x hx => by
    have := le_listMax_of_mem hx; omega
  have := prod_le_one_of_all_le_one this
  omega

theorem halveLoop_prod_le (fuel budget : Nat) (l : List Nat)
    (hbud : 1 ≤ budget) (hfuel : l.sum < fuel) :
    hsMultiply (halveLoop fuel budget l) ≤ budget := by
  induction fuel generalizing l with
  | zero => omega
  | succ n ih =>
    unfold halveLoop
    split
    · assumption
    · rename_i hgt
      push_neg at hgt
      have h2 : 2 ≤ l.prod := by unfold hsMultiply at hgt; omega
      have hmax := listMax_ge_two_of_prod h2
      have hdec := halveStep_sum_lt (l := l) (by omega)
      exact ih _ (by omega)

theorem halveLoop_length (fuel budget : Nat) (l : List Nat) :
    (halveLoop fuel budget l).length = l.length := by
  induction fuel generalizing l with
  | zero => rfl
  | succ n ih =>
    unfold halveLoop
    split
    · rfl
    · rw [ih]; unfold halveStep; simp

theorem halveStep_all_pos {l : List Nat} (hpos : ∀ x ∈ l, 1 ≤ x)
    (h2 : 2 ≤ listMax l) : ∀ x ∈ halveStep l, 1 ≤ x := by
  intro x hx
  unfold halveStep at hx
  rcases List.mem_or_eq_of_mem_set hx with hmem | heq
  · exact hpos x hmem
  · rw [heq, getD_argmaxIdx]; omega

theorem halveLoop_all_pos (fuel budget : Nat) (l : List Nat)
    (hbud : 1 ≤ budget) (hpos : ∀ x ∈ l, 1 ≤ x) :
    ∀ x ∈ halveLoop fuel budget l, 1 ≤ x := by
  induction fuel generalizing l with
  | zero => exact hpos
  | succ n ih =>
    unfold halveLoop
    split
    · exact hpos
    · rename_i hgt
      push_neg at hgt
      have h2 : 2 ≤ l.prod := by unfold hsMultiply at hgt; omega
      exact ih _ (halveStep_all_pos hpos (listMax_ge_two_of_prod h2))


theorem buildChunks_cons_keep (a : AxisInfo) (rest : List AxisInfo) (fs : List Nat)
    (hk : a.keep = true) :
    buildChunks (a :: rest) fs = [a.size] :: buildChunks rest fs := by
  cases fs <;> simp only [buildChunks, if_pos hk]

theorem buildChunks_cons_free (a : AxisInfo) (rest : List AxisInfo) (f : Nat)
    (fsTail : List Nat) (hk : a.keep = false) :
    buildChunks (a :: rest) (f :: fsTail) =
      arraySplitLens a.size (ceilDiv a.size f) :: buildChunks rest fsTail := by
  simp only [buildChunks, hk, Bool.false_eq_true, if_false]

theorem ceilDiv_pos {n s : Nat} (hn : 1 ≤ n) (hs : 1 ≤ s) : 1 ≤ ceilDiv n s := by
  unfold ceilDiv
  rw [Nat.one_le_div_iff hs]
  omega

theorem le_mul_ceilDiv (n s : Nat) (hs : 1 ≤ s) : n ≤ ceilDiv n s * s := by
  unfold ceilDiv
  have h := Nat.div_add_mod (n + s - 1) s
  have hmod := Nat.mod_lt (n + s - 1) (y := s) hs
  have hcomm : (n + s - 1) / s * s = s * ((n + s - 1) / s) := Nat.mul_comm _ _
  omega

theorem arraySplitLens_le {n s : Nat} (hn : 1 ≤ n) (hs : 1 ≤ s) :
    ∀ x ∈ arraySplitLens n (ceilDiv n s), x ≤ s := by
  intro x hx
  set k := ceilDiv n s with hk
  have hkpos : 1 ≤ k := ceilDiv_pos hn hs
  have hnks : n ≤ k * s := le_mul_ceilDiv n s hs
  have hdm := Nat.div_add_mod n k
  have hq : n / k ≤ s := by
    by_contra hc
    push_neg at hc
    have hmono : k * (s + 1) ≤ k * (n / k) := Nat.mul_le_mul_left k hc
    have hle : k * (n / k) ≤ n := Nat.mul_div_le n k
    have hms : k * (s + 1) = k * s + k := by ring
    omega
  unfold arraySplitLens at hx
  rcases List.mem_append.mp hx with hmem | hmem
  · have hxval : x = n / k + 1 := List.eq_of_mem_replicate hmem
    have hrpos : 0 < n % k := by
      rcases List.mem_replicate.mp hmem with ⟨hne, _⟩
      omega
    have hqlt : n / k < s := by
      by_contra hc
      push_neg at hc
      have hqs : n / k = s := Nat.le_antisymm hq hc
      have hle : k * (n / k) ≤ n := Nat.mul_div_le n k
      rw [hqs] at hle hdm
      have hcm : k * s = s * k := Nat.mul_comm k s
      omega
    omega
  · have hxval : x = n / k := List.eq_of_mem_replicate hmem
    omega

theorem buildChunks_length (axes : List AxisInfo) (fs : List Nat) :
    (buildChunks axes fs).length = axes.length := by
  induction axes generalizing fs with
  | nil => rfl
  | cons a rest ih =>
    by_cases hk : a.keep = true
    · rw [buildChunks_cons_keep a rest fs hk]
      simpa using ih fs
    · have hkf : a.keep = false := by simpa using hk
      cases fs with
      | nil => simp only [buildChunks, hkf, Bool.false_eq_true, if_false]; simpa using ih []
      | cons f fsTail =>
        rw [buildChunks_cons_free a rest f fsTail hkf]
        simpa using ih fsTail

theorem buildChunks_keep (axes : List AxisInfo) (fs : List Nat) :
    ∀ p ∈ axes.zip (buildChunks axes fs), p.1.keep = true → p.2 = [p.1.size] := by
  induction axes generalizing fs with
  | nil => intro p hp; simp [buildChunks] at hp
  | cons a rest ih =>
    intro p hp hkeep
    by_cases hk : a.keep = true
    · rw [buildChunks_cons_keep a rest fs hk] at hp
      rcases List.mem_cons.mp hp with hhd | htl
      · rw [hhd]
      · exact ih fs p htl hkeep
    · have hkf : a.keep = false := by simpa using hk
      cases fs with
      | nil =>
        simp only [buildChunks, hkf, Bool.false_eq_true, if_false] at hp
        rcases List.mem_cons.mp hp with hhd | htl
        · rw [hhd] at hkeep; exact absurd hkeep hk
        · exact ih [] p htl hkeep
      | cons f fsTail =>
        rw [buildChunks_cons_free a rest f fsTail hkf] at hp
        rcases List.mem_cons.mp hp with hhd | htl
        · rw [hhd] at hkeep; exact absurd hkeep hk
        · exact ih fsTail p htl hkeep

theorem freeMaxProd_cons_keep (a : AxisInfo) (rest : List AxisInfo)
    (ch : List Nat) (chunks : List (List Nat)) (hk : a.keep = true) :
    freeMaxProd (a :: rest) (ch :: chunks) = freeMaxProd rest chunks := by
  unfold freeMaxProd
  simp [hk]

theorem freeMaxProd_cons_free (a : AxisInfo) (rest : List AxisInfo)
    (ch : List Nat) (chunks : List (List Nat)) (hk : a.keep = false) :
    freeMaxProd (a :: rest) (ch :: chunks) = listMax ch * freeMaxProd rest chunks := by
  unfold freeMaxProd hsMultiply
  simp [hk]

theorem buildChunks_freeMaxProd (axes : List AxisInfo) (fs : List Nat)
    (hsz : ∀ a ∈ axes, 1 ≤ a.size) (hfs : ∀ f ∈ fs, 1 ≤ f)
    (hlen : (axes.filter (fun a => !a.keep)).length = fs.length) :
    freeMaxProd axes (buildChunks axes fs) ≤ fs.prod := by
  induction axes generalizing fs with
  | nil =>
    cases fs with
    | nil => simp [freeMaxProd, buildChunks, hsMultiply]
    | cons f fsTail => simp at hlen
  | cons a rest ih =>
    by_cases hk : a.keep = true
    · rw [buildChunks_cons_keep a rest fs hk, freeMaxProd_cons_keep _ _ _ _ hk]
      refine ih fs (fun x hx => hsz x (by simp [hx])) hfs ?_
      simpa [hk] using hlen
    · have hkf : a.keep = false := by simpa using hk
      cases fs with
      | nil => simp [hkf] at hlen
      | cons f fsTail =>
        rw [buildChunks_cons_free a rest f fsTail hkf, freeMaxProd_cons_free _ _ _ _ hkf]
        have h1 : listMax (arraySplitLens a.size (ceilDiv a.size f)) ≤ f :=
          listMax_le_iff.mpr
            (arraySplitLens_le (hsz a (by simp)) (hfs f (by simp)))
        have h2 : freeMaxProd rest (buildChunks rest fsTail) ≤ fsTail.prod := by
          refine ih fsTail (fun x hx => hsz x (by simp [hx]))
            (fun x hx => hfs x (by simp [hx])) ?_
          simpa [hkf] using hlen
        calc listMax (arraySplitLens a.size (ceilDiv a.size f)) *
              freeMaxProd rest (buildChunks rest fsTail)
            ≤ f * fsTail.prod := Nat.mul_le_mul h1 h2
          _ = (f :: fsTail).prod := by simp


theorem one_le_prod_of_all_pos {l : List Nat} (h : ∀ x ∈ l, 1 ≤ x) : 1 ≤ l.prod := by
  induction l with
  | nil => simp
  | cons x xs ih =>
    have hx := h x (by simp)
    have hxs := ih (fun y hy => h y (by simp [hy]))
    calc 1 = 1 * 1 := by simp
      _ ≤ x * xs.prod := Nat.mul_le_mul hx hxs
      _ = (x :: xs).prod := by simp

theorem listMax_replicate_one_le (n : Nat) : listMax (List.replicate n 1) ≤ 1 := by
  induction n with
  | zero => simp [listMax]
  | succ m ih => simpa [List.replicate_succ, listMax_cons] using ih

theorem mem_zip_map_self {α β : Type} {l : List α} {g : α → β} :
    ∀ p ∈ l.zip (l.map g), p.2 = g p.1 := by
  induction l with
  | nil => intro p hp; simp at hp
  | cons x xs ih =>
    intro p hp
    rcases List.mem_cons.mp hp with hhd | htl
    · rw [hhd]
    · exact ih p htl

theorem freeMaxProd_map_self (l : List AxisInfo) (g : AxisInfo → List Nat) :
    freeMaxProd l (l.map g) =
      ((l.filter (fun a => !a.keep)).map (fun a => listMax (g a))).prod := by
  induction l with
  | nil => simp [freeMaxProd, hsMultiply]
  | cons a rest ih =>
    by_cases hk : a.keep = true
    · rw [List.map_cons, freeMaxProd_cons_keep _ _ _ _ hk, ih]
      simp [hk]
    · have hkf : a.keep = false := by simpa using hk
      rw [List.map_cons, freeMaxProd_cons_free _ _ _ _ hkf, ih]
      simp [hkf]

/-- C1: for every array shape, element byte width and set of must-keep-whole
axes (with positive sizes and a byte width of at most the budget), the chunk
specification returned by the chunk planner gives each must-keep-whole axis
exactly one chunk equal to the full size of that axis, and the product of
the largest per-axis chunk sizes of the remaining free axes times the
element byte width is at most the fixed 100 MiB block-footprint budget
(the bound is proved exactly, which is stronger than the claimed within one
halving step). -/
theorem get_dask_chunks_spec (axes : List AxisInfo) (typesize : Nat)
    (hsz : ∀ a ∈ axes, 1 ≤ a.size) (hts : 1 ≤ typesize) (hts2 : typesize ≤ budgetBytes) :
    (_get_dask_chunks axes typesize).length = axes.length ∧
    (∀ p ∈ axes.zip (_get_dask_chunks axes typesize), p.1.keep = true → p.2 = [p.1.size]) ∧
    freeMaxProd axes (_get_dask_chunks axes typesize) * typesize ≤ budgetBytes := by
  unfold _get_dask_chunks
  set wantToKeep := hsMultiply ((axes.filter (·.keep)).map (·.size)) * typesize with hwtk
  set numThatFit := budgetBytes / wantToKeep with hntf
  by_cases hdeg : numThatFit < 2
  · rw [if_pos hdeg]
    refine ⟨by simp, ?_, ?_⟩
    · intro p hp hkeep
      have := mem_zip_map_self p hp
      rw [this, if_pos hkeep]
    · have hmap := freeMaxProd_map_self axes
        (fun a => if a.keep = true then [a.size] else List.replicate a.size 1)
      rw [hmap]
      have hle1 : ((axes.filter (fun a => !a.keep)).map
          (fun a => listMax (if a.keep = true then [a.size]
            else List.replicate a.size 1))).prod ≤ 1 := by
        apply prod_le_one_of_all_le_one
        intro x hx
        rcases List.mem_map.mp hx with ⟨a, ha, hxa⟩
        have hkf : a.keep = false := by
          have := (List.mem_filter.mp ha).2
          simpa using this
        rw [← hxa, hkf]
        simpa using listMax_replicate_one_le a.size
      calc ((axes.filter (fun a => !a.keep)).map
            (fun a => listMax (if a.keep = true then [a.size]
              else List.replicate a.size 1))).prod * typesize
          ≤ 1 * typesize := Nat.mul_le_mul_right typesize hle1
        _ = typesize := by simp
        _ ≤ budgetBytes := hts2
  · rw [if_neg hdeg]
    push_neg at hdeg
    set freeSizes := (axes.filter (fun a => !a.keep)).map (·.size) with hfsz
    set finalSizes := halveLoop (freeSizes.sum + 1) numThatFit freeSizes with hfin
    have hfree_pos : ∀ x ∈ freeSizes, 1 ≤ x := by
      intro x hx
      rcases List.mem_map.mp hx with ⟨a, ha, hxa⟩
      rw [← hxa]
      exact hsz a (List.mem_of_mem_filter ha)
    have hfin_pos : ∀ x ∈ finalSizes, 1 ≤ x :=
      halveLoop_all_pos _ _ _ (by omega) hfree_pos
    have hlen : (axes.filter (fun a => !a.keep)).length = finalSizes.length := by
      rw [hfin, halveLoop_length, hfsz, List.length_map]
    have hfmp : freeMaxProd axes (buildChunks axes finalSizes) ≤ finalSizes.prod :=
      buildChunks_freeMaxProd axes finalSizes hsz hfin_pos hlen
    have hprod : finalSizes.prod ≤ numThatFit := by
      have := halveLoop_prod_le (freeSizes.sum + 1) numThatFit freeSizes
        (by omega) (by omega)
      unfold hsMultiply at this
      rw [hfin]
      exact this
    have hts_wtk : typesize ≤ wantToKeep := by
      rw [hwtk]
      have hkeep_pos : 1 ≤ hsMultiply ((axes.filter (·.keep)).map (·.size)) := by
        apply one_le_prod_of_all_pos
        intro x hx
        rcases List.mem_map.mp hx with ⟨a, ha, hxa⟩
        rw [← hxa]
        exact hsz a (List.mem_of_mem_filter ha)
      calc typesize = 1 * typesize := by simp
        _ ≤ hsMultiply ((axes.filter (·.keep)).map (·.size)) * typesize :=
          Nat.mul_le_mul_right typesize hkeep_pos
    have hbud : numThatFit * wantToKeep ≤ budgetBytes := by
      rw [hntf]
      exact Nat.div_mul_le_self budgetBytes wantToKeep
    refine ⟨buildChunks_length axes finalSizes, buildChunks_keep axes finalSizes, ?_⟩
    calc freeMaxProd axes (buildChunks axes finalSizes) * typesize
        ≤ numThatFit * typesize :=
          Nat.mul_le_mul_right typesize (Nat.le_trans hfmp hprod)
      _ ≤ numThatFit * wantToKeep := Nat.mul_le_mul_left numThatFit hts_wtk
      _ ≤ budgetBytes := hbud

/-- Witness for C1 at a concrete input: a free axis of size 4 and a kept
axis of size 6 with 4-byte elements. -/
theorem get_dask_chunks_spec_witness :
    (∀ a ∈ [AxisInfo.mk 4 false, AxisInfo.mk 6 true], 1 ≤ a.size) ∧ 1 ≤ 4 ∧ 4 ≤ budgetBytes ∧
    ((_get_dask_chunks [AxisInfo.mk 4 false, AxisInfo.mk 6 true] 4).length =
        ([AxisInfo.mk 4 false, AxisInfo.mk 6 true] : List AxisInfo).length ∧
     (∀ p ∈ ([AxisInfo.mk 4 false, AxisInfo.mk 6 true] : List AxisInfo).zip
        (_get_dask_chunks [AxisInfo.mk 4 false, AxisInfo.mk 6 true] 4),
        p.1.keep = true → p.2 = [p.1.size]) ∧
     freeMaxProd [AxisInfo.mk 4 false, AxisInfo.mk 6 true]
        (_get_dask_chunks [AxisInfo.mk 4 false, AxisInfo.mk 6 true] 4) * 4 ≤ budgetBytes) :=
  ⟨by decide, by decide, by decide,
   get_dask_chunks_spec _ 4 (by decide) (by decide) (by decide)⟩



/-! ### MaskedBlockIterator: counting lemmas and the C6 / C7 claims -/

theorem sum_map_add {α : Type} (l : List α) (f g : α → Nat) :
    (l.map (fun a => f a + g a)).sum = (l.map f).sum + (l.map g).sum := by
  induction l with
  | nil => simp
  | cons x xs ih => simp [ih]; omega

theorem list_sum_comm {α β : Type} (l1 : List α) (l2 : List β) (f : α → β → Nat) :
    (l1.map (fun a => (l2.map (f a)).sum)).sum =
      (l2.map (fun b => (l1.map (fun a => f a b)).sum)).sum := by
  induction l1 with
  | nil => simp
  | cons x xs ih =>
    simp only [List.map_cons, List.sum_cons, ih]
    rw [← sum_map_add]

theorem countP_flatMap {α β : Type} (l : List α) (f : α → List β) (p : β → Bool) :
    (l.flatMap f).countP p = (l.map (fun a => (f a).countP p)).sum := by
  induction l with
  | nil => simp
  | cons x xs ih => simp [List.flatMap_cons, List.countP_append, ih]

theorem sum_map_flatMap {α β : Type} (l : List α) (f : α → List β) (g : β → Nat) :
    ((l.flatMap f).map g).sum = (l.map (fun a => ((f a).map g).sum)).sum := by
  induction l with
  | nil => simp
  | cons x xs ih => simp [List.flatMap_cons, ih]

theorem sum_map_over_flatten {α : Type} (L : List (List α)) (g : α → Nat) :
    (L.map (fun seg => (seg.map g).sum)).sum = (L.flatten.map g).sum := by
  induction L with
  | nil => simp
  | cons seg rest ih => simp [List.flatten_cons, ih]

theorem countP_cartProd_cons {α : Type} (xs : List α) (L : List (List α))
    (q : List α → Bool) :
    (cartProd (xs :: L)).countP q =
      (xs.map (fun x => (cartProd L).countP (fun t => q (x :: t)))).sum := by
  show (xs.flatMap (fun x => (cartProd L).map (x :: ·))).countP q = _
  rw [countP_flatMap]
  congr 1
  apply List.map_congr_left
  intro x hx
  rw [List.countP_map]
  rfl

theorem length_segmentsFrom (s : Nat) (c : List Nat) :
    (segmentsFrom s c).length = c.length := by
  induction c generalizing s with
  | nil => rfl
  | cons l rest ih => simp [segmentsFrom, ih]

theorem segmentsFrom_flatten (c : List Nat) (s : Nat) :
    (segmentsFrom s c).flatten = (List.range c.sum).map (· + s) := by
  induction c generalizing s with
  | nil => simp [segmentsFrom]
  | cons l rest ih =>
    simp only [segmentsFrom, List.flatten_cons, ih (s + l), List.sum_cons]
    rw [List.range_add l rest.sum, List.map_append, List.map_map]
    congr 1
    apply List.map_congr_left
    intro x hx
    simp [Function.comp]
    omega

theorem sum_range_getD {α : Type} (L : List α) (d : α) (F : α → Nat) :
    ((List.range L.length).map (fun i => F (L.getD i d))).sum = (L.map F).sum := by
  induction L with
  | nil => simp
  | cons x xs ih =>
    have h1 : List.range (x :: xs).length = 0 :: (List.range xs.length).map Nat.succ :=
      List.range_succ_eq_map _
    rw [h1, List.map_cons, List.map_map, List.sum_cons]
    have h2 : (List.range xs.length).map ((fun i => F ((x :: xs).getD i d)) ∘ Nat.succ)
        = (List.range xs.length).map (fun i => F (xs.getD i d)) := by
      apply List.map_congr_left
      intro i hi
      rfl
    rw [h2, ih]
    rfl

theorem box_partition (navChunks : List (List Nat)) (q : List Nat → Bool) :
    ((blockIndices navChunks).map (fun ind => (blockBox navChunks ind).countP q)).sum
      = (fullGrid navChunks).countP q := by
  induction navChunks generalizing q with
  | nil => rfl
  | cons c rest ih =>
    have hLHS :
        blockIndices (c :: rest) =
          (List.range c.length).flatMap (fun i => (blockIndices rest).map (i :: ·)) := rfl
    rw [hLHS, sum_map_flatMap]
    have hinner : ∀ i ∈ List.range c.length,
        (((blockIndices rest).map (i :: ·)).map
          (fun ind => (blockBox (c :: rest) ind).countP q)).sum =
        (((segmentsFrom 0 c).getD i []).map
          (fun x => (fullGrid rest).countP (fun tt => q (x :: tt)))).sum := by
      intro i hi
      rw [List.map_map]
      have hbb : ∀ t : List Nat, (blockBox (c :: rest) (i :: t)).countP q =
          (((segmentsFrom 0 c).getD i []).map
            (fun x => (blockBox rest t).countP (fun tt => q (x :: tt)))).sum := by
        intro t
        show (cartProd (((segmentsFrom 0 c).getD i []) ::
          ((rest.zip t).map (fun p => (segmentsFrom 0 p.1).getD p.2 [])))).countP q = _
        rw [countP_cartProd_cons]
        rfl
      calc ((blockIndices rest).map
            ((fun ind => (blockBox (c :: rest) ind).countP q) ∘ (i :: ·))).sum
          = ((blockIndices rest).map (fun t =>
              (((segmentsFrom 0 c).getD i []).map
                (fun x => (blockBox rest t).countP (fun tt => q (x :: tt)))).sum)).sum := by
            apply congrArg
            apply List.map_congr_left
            intro t ht
            exact hbb t
        _ = (((segmentsFrom 0 c).getD i []).map (fun x =>
              ((blockIndices rest).map (fun t =>
                (blockBox rest t).countP (fun tt => q (x :: tt)))).sum)).sum := by
            rw [list_sum_comm]
        _ = (((segmentsFrom 0 c).getD i []).map
              (fun x => (fullGrid rest).countP (fun tt => q (x :: tt)))).sum := by
            apply congrArg
            apply List.map_congr_left
            intro x hx
            exact ih (fun tt => q (x :: tt))
    rw [List.map_congr_left hinner]
    have hlen : List.range c.length = List.range (segmentsFrom 0 c).length := by
      rw [length_segmentsFrom]
    rw [hlen]
    have hstep := sum_range_getD (segmentsFrom 0 c) []
      (fun seg => (seg.map
        (fun x => List.countP (fun tt => q (x :: tt)) (fullGrid rest))).sum)
    rw [hstep, sum_map_over_flatten, segmentsFrom_flatten]
    have hplus : ((List.range c.sum).map (· + 0)) = List.range c.sum := by simp
    rw [hplus]
    show _ = (cartProd ((List.range c.sum) ::
      rest.map (fun c => List.range c.sum))).countP q
    rw [countP_cartProd_cons]
    rfl


theorem applyRowMask_length {α : Type} (row : List α) (keep : List Bool)
    (h : row.length = keep.length) :
    (applyRowMask row keep).length = keep.countP (fun b => b) := by
  induction row generalizing keep with
  | nil =>
    cases keep with
    | nil => rfl
    | cons b k => simp at h
  | cons x r ih =>
    cases keep with
    | nil => simp at h
    | cons b k =>
      have hlen : r.length = k.length := by simpa using h
      cases b <;> simp [applyRowMask, List.countP_cons] at * <;>
        simpa [applyRowMask] using ih k hlen

theorem countP_replicate_true (n : Nat) :
    (List.replicate n true).countP (fun b => b) = n := by
  induction n with
  | zero => rfl
  | succ m ih => simp [List.replicate_succ, List.countP_cons, ih]

theorem sigKeepFlags_length (sm : Option (List Bool)) (signalSize : Nat)
    (hsm : ∀ m, sm = some m → m.length = signalSize) :
    (sigKeepFlags sm signalSize).length = signalSize := by
  cases sm with
  | none => simp [sigKeepFlags]
  | some m => simp [sigKeepFlags, hsm m rfl]

theorem sigKeepFlags_countP (sm : Option (List Bool)) (signalSize : Nat) :
    (sigKeepFlags sm signalSize).countP (fun b => b) =
      unmaskedSigCount sm signalSize := by
  cases sm with
  | none => simp [sigKeepFlags, unmaskedSigCount, countP_replicate_true]
  | some m =>
    show (m.map (!·)).countP (fun b => b) = m.countP (fun b => !b)
    rw [List.countP_map]
    rfl

theorem sum_map_const {α : Type} (l : List α) (k : Nat) :
    (l.map (fun _ => k)).sum = l.length * k := by
  induction l with
  | nil => simp
  | cons x xs ih => simp [ih, Nat.succ_mul]; omega

theorem sum_map_mul_const {α : Type} (l : List α) (f : α → Nat) (k : Nat) :
    (l.map (fun a => f a * k)).sum = (l.map f).sum * k := by
  induction l with
  | nil => simp
  | cons x xs ih => simp [ih, Nat.add_mul]

/-- C6: for every chunk grid over the navigation dimensions, every pair of
boolean navigation/signal masks (or no masks: the none cases), and every
data array whose rows have the flattened signal length, iterating the block
iterator in flat mode yields chunks whose total element count summed over
all yields equals the number of unmasked navigation points times the number
of unmasked signal points. -/
theorem block_iterator_flat_count {α : Type} (navChunks : List (List Nat))
    (signalSize : Nat) (nm : Option (List Nat → Bool)) (sm : Option (List Bool))
    (data : List Nat → List α)
    (hrow : ∀ p, (data p).length = signalSize)
    (hsm : ∀ m, sm = some m → m.length = signalSize) :
    totalElems (_block_iterator_flat navChunks signalSize nm sm data) =
      unmaskedNavCount navChunks nm * unmaskedSigCount sm signalSize := by
  have hflags : (sigKeepFlags sm signalSize).length = signalSize :=
    sigKeepFlags_length sm signalSize hsm
  have hrowlen : ∀ p : List Nat,
      (applyRowMask (data p) (sigKeepFlags sm signalSize)).length =
        (sigKeepFlags sm signalSize).countP (fun b => b) := by
    intro p
    exact applyRowMask_length _ _ (by rw [hrow p, hflags])
  unfold totalElems _block_iterator_flat
  rw [List.map_map]
  have hblock : ∀ ind ∈ blockIndices navChunks,
      ((fun rows => (rows.map List.length).sum) ∘
        (fun ind => ((blockBox navChunks ind).filter
            (fun p => !navMaskFn nm p)).map
          (fun p => applyRowMask (data p) (sigKeepFlags sm signalSize)))) ind =
      (blockBox navChunks ind).countP (fun p => !navMaskFn nm p) *
        unmaskedSigCount sm signalSize := by
    intro ind hind
    show ((((blockBox navChunks ind).filter (fun p => !navMaskFn nm p)).map
      (fun p => applyRowMask (data p) (sigKeepFlags sm signalSize))).map
        List.length).sum = _
    rw [List.map_map]
    have hconst : ((blockBox navChunks ind).filter (fun p => !navMaskFn nm p)).map
        (List.length ∘ (fun p => applyRowMask (data p) (sigKeepFlags sm signalSize))) =
        ((blockBox navChunks ind).filter (fun p => !navMaskFn nm p)).map
          (fun _ => unmaskedSigCount sm signalSize) := by
      apply List.map_congr_left
      intro p hp
      show (applyRowMask (data p) (sigKeepFlags sm signalSize)).length = _
      rw [hrowlen p, sigKeepFlags_countP]
    rw [hconst, sum_map_const, ← List.countP_eq_length_filter]
  rw [List.map_congr_left hblock, sum_map_mul_const, box_partition]
  rfl


theorem replicate_eq_range_map {β : Type} (n : Nat) (x : β) :
    List.replicate n x = (List.range n).map (fun _ => x) := by
  induction n with
  | zero => rfl
  | succ m ih =>
    rw [List.range_succ_eq_map, List.map_cons, List.map_map, List.replicate_succ, ih]
    rfl

theorem zip_mask_row {β : Type} (n : Nat) (g : Nat → β) (m : List Bool) (f : β)
    (hm : m.length = n) :
    (((List.range n).map g).zip m).map (fun e => if e.2 then f else e.1) =
      (List.range n).map (fun j => if m.getD j false then f else g j) := by
  induction n generalizing g m with
  | zero =>
    cases m with
    | nil => rfl
    | cons b k => simp at hm
  | succ nn ih =>
    cases m with
    | nil => simp at hm
    | cons b k =>
      have hk : k.length = nn := by simpa using hm
      have hL : ((List.range (nn + 1)).map g) = g 0 :: (List.range nn).map (g ∘ Nat.succ) := by
        rw [List.range_succ_eq_map, List.map_cons, List.map_map]
      rw [hL, List.zip_cons_cons, List.map_cons]
      have hR : (List.range (nn + 1)).map (fun j => if (b :: k).getD j false then f else g j)
          = (if b then f else g 0) ::
            (List.range nn).map (fun j => if k.getD j false then f else (g ∘ Nat.succ) j) := by
        rw [List.range_succ_eq_map, List.map_cons, List.map_map]
        rfl
      rw [hR]
      congr 1
      exact ih (g ∘ Nat.succ) k hk

theorem denseSigMask_length (sm : Option (List Bool)) (signalSize : Nat)
    (hsm : ∀ m, sm = some m → m.length = signalSize) :
    (denseSigMask sm signalSize).length = signalSize := by
  cases sm with
  | none => simp [denseSigMask]
  | some m => simp [denseSigMask, hsm m rfl]

/-- C7: in dense mode every yielded block retains the original block shape
(one row for every navigation position of the block, each of flattened
signal length, the final reshape of the signal dimension being a pure shape
change), every masked navigation or signal location is overwritten with the
NaN sentinel when the block dtype can represent NaN (np.can_cast from
float) and with zero otherwise, and every unmasked location keeps the
original value. -/
theorem block_iterator_dense_spec {α : Type} (navChunks : List (List Nat))
    (signalSize : Nat) (nm : Option (List Nat → Bool)) (sm : Option (List Bool))
    (canCastFloat : Bool) (data : List Nat → Nat → α)
    (hsm : ∀ m, sm = some m → m.length = signalSize) :
    _block_iterator_dense navChunks signalSize nm sm canCastFloat data =
      (blockIndices navChunks).map (fun ind =>
        (blockBox navChunks ind).map (fun p =>
          (List.range signalSize).map (fun j =>
            if navMaskFn nm p || (denseSigMask sm signalSize).getD j false
            then (if canCastFloat then DenseVal.nan else DenseVal.zero)
            else DenseVal.orig (data p j)))) := by
  have hmlen : (denseSigMask sm signalSize).length = signalSize :=
    denseSigMask_length sm signalSize hsm
  unfold _block_iterator_dense
  apply List.map_congr_left
  intro ind hind
  rw [List.map_map, List.map_map]
  apply List.map_congr_left
  intro p hp
  by_cases hmask : navMaskFn nm p = true
  · show ((if navMaskFn nm p then List.replicate signalSize (denseFill α canCastFloat)
        else (List.range signalSize).map (fun j => DenseVal.orig (data p j))).zip
          (denseSigMask sm signalSize)).map
        (fun e => if e.2 then denseFill α canCastFloat else e.1) = _
    rw [if_pos hmask, replicate_eq_range_map,
      zip_mask_row signalSize _ _ _ hmlen]
    apply List.map_congr_left
    intro j hj
    simp [hmask, denseFill]
  · have hmf : navMaskFn nm p = false := by simpa using hmask
    show ((if navMaskFn nm p then List.replicate signalSize (denseFill α canCastFloat)
        else (List.range signalSize).map (fun j => DenseVal.orig (data p j))).zip
          (denseSigMask sm signalSize)).map
        (fun e => if e.2 then denseFill α canCastFloat else e.1) = _
    rw [hmf, if_neg (by simp), zip_mask_row signalSize _ _ _ hmlen]
    apply List.map_congr_left
    intro j hj
    simp [denseFill]


/-- Witness for C6 at a concrete input: three navigation points chunked as
(2, 1), one masked navigation point and one masked signal column. -/
theorem block_iterator_flat_count_witness :
    (∀ p : List Nat, (((fun _ => [0, 0]) : List Nat → List Nat) p).length = 2) ∧
    (∀ m : List Bool, (some [true, false] : Option (List Bool)) = some m → m.length = 2) ∧
    totalElems (_block_iterator_flat [[2, 1]] 2
        (some (fun p => decide (p = [1]))) (some [true, false]) (fun _ => [0, 0])) =
      unmaskedNavCount [[2, 1]] (some (fun p => decide (p = [1]))) *
        unmaskedSigCount (some [true, false]) 2 :=
  ⟨fun _ => rfl,
   fun m h => by injection h with h2; subst h2; rfl,
   block_iterator_flat_count [[2, 1]] 2 (some (fun p => decide (p = [1])))
     (some [true, false]) (fun _ => [0, 0]) (fun _ => rfl)
     (fun m h => by injection h with h2; subst h2; rfl)⟩

/-- Witness for C7 at a concrete input: two navigation points in one chunk,
no navigation mask, one masked signal column, NaN-capable dtype. -/
theorem block_iterator_dense_spec_witness :
    (∀ m : List Bool, (some [true, false] : Option (List Bool)) = some m → m.length = 2) ∧
    _block_iterator_dense [[2]] 2 none (some [true, false]) true
        (fun _ _ => (5 : Nat)) =
      (blockIndices [[2]]).map (fun ind =>
        (blockBox [[2]] ind).map (fun p =>
          (List.range 2).map (fun j =>
            if navMaskFn none p || (denseSigMask (some [true, false]) 2).getD j false
            then (if true then DenseVal.nan else DenseVal.zero)
            else DenseVal.orig ((fun (_ : List Nat) (_ : Nat) => (5 : Nat)) p j)))) :=
  ⟨fun m h => by injection h with h2; subst h2; rfl,
   block_iterator_dense_spec [[2]] 2 none (some [true, false]) true (fun _ _ => 5)
     (fun m h => by injection h with h2; subst h2; rfl)⟩

/-! ### Decomposition pipeline claims -/

/-- C2: for every call to decomposition, whether it returns normally or
exits with an exception, the data attribute of the signal on exit refers to
the same array object it referred to at entry; in particular the
Poissonian-noise-rescaled working array is never left installed.  The
configuration c ranges over every modelled combination of algorithm,
masks, normalization, and oracle failures of the external calls, covering
the normal return and every exceptional exit. -/
theorem decomposition_data_restored (c : DecCfg) (s : DecState) :
    (decomposition c s).state.data = s.data := by
  simp only [decomposition]
  repeat' split
  all_goals rfl

/-- C3: for every call to decomposition with algorithm PCA, ORPCA or ORNMF
and output_dimension left as None, a ValueError is raised, before any
access to the data of the signal (the trace is empty, so in particular
self.data was never read) and with the signal state untouched. -/
theorem decomposition_missing_od (c : DecCfg) (s : DecState)
    (halg : c.algorithm = Alg.PCA ∨ c.algorithm = Alg.ORPCA ∨ c.algorithm = Alg.ORNMF)
    (hod : c.output_dimension = none) :
    decomposition c s =
      { state := s, err := some PyErr.valueError, trace := [], committed := false } := by
  rcases halg with h | h | h <;> simp [decomposition, h, hod]

/-- Witness for C3 at a concrete input: algorithm PCA with no
output_dimension raises ValueError with an empty trace. -/
theorem decomposition_missing_od_witness :
    (({ algorithm := Alg.PCA, normalize_poissonian_noise := false,
        output_dimension := none, navigation_mask := false, signal_mask := false,
        num_chunks := none, reproject := true, navChunks := [[2, 2]],
        sklearnInstalled := true, unfoldReturns := false, svdRaises := false,
        fitRaises := false, projectRaises := false } : DecCfg).output_dimension = none) ∧
    decomposition
      { algorithm := Alg.PCA, normalize_poissonian_noise := false,
        output_dimension := none, navigation_mask := false, signal_mask := false,
        num_chunks := none, reproject := true, navChunks := [[2, 2]],
        sklearnInstalled := true, unfoldReturns := false, svdRaises := false,
        fitRaises := false, projectRaises := false }
      { data := DRef.base 3, unfolded4decomposition := false } =
      { state := { data := DRef.base 3, unfolded4decomposition := false },
        err := some PyErr.valueError, trace := [], committed := false } :=
  ⟨rfl, decomposition_missing_od _ _ (Or.inl rfl) rfl⟩

/-- Helper for C9: in the body, the SVD branch with unfold() returning True
leaves the _unfolded4decomposition flag True (the resetting statement is a
comparison, not an assignment) and calls fold() on every exit path. -/
theorem decompBody_svd_flag (c : DecCfg) (s : DecState) (hu : c.unfoldReturns = true) :
    ((decompBody Alg.SVD c s).1).unfolded4decomposition = true ∧
    DEv.foldCall ∈ (decompBody Alg.SVD c s).2.2 := by
  unfold decompBody
  by_cases hn : c.normalize_poissonian_noise = true <;>
    by_cases hm : (c.navigation_mask = true ∨ c.signal_mask = true) <;>
    by_cases hsv : c.svdRaises = true <;>
    simp_all

/-- C9: after decomposition with algorithm SVD on a signal for which
unfold() returns True, fold() is invoked on every exit path of the SVD
branch (the oracles cover the mask NotImplementedError, an svd failure and
the normal path), yet the _unfolded4decomposition attribute is still True
when decomposition exits, because the statement intended to reset it
(self._unfolded4decomposition is False, lazy.py line 989) is a comparison
expression, not an assignment. -/
theorem decomposition_svd_fold_flag (c : DecCfg) (s : DecState)
    (halg : c.algorithm = Alg.SVD) (hu : c.unfoldReturns = true) :
    (decomposition c s).state.unfolded4decomposition = true ∧
    DEv.foldCall ∈ (decomposition c s).trace := by
  rcases h : decompBody Alg.SVD c s with ⟨s1, err1, tr1⟩
  have hb := decompBody_svd_flag c s hu
  rw [h] at hb
  cases err1 <;> simp +decide [decomposition, halg, h] <;> simp_all

/-- Witness for C9 at a concrete input. -/
theorem decomposition_svd_fold_flag_witness :
    (({ algorithm := Alg.SVD, normalize_poissonian_noise := true,
        output_dimension := some 2, navigation_mask := false, signal_mask := false,
        num_chunks := none, reproject := true, navChunks := [[2, 2]],
        sklearnInstalled := false, unfoldReturns := true, svdRaises := false,
        fitRaises := false, projectRaises := false } : DecCfg).unfoldReturns = true) ∧
    ((decomposition
      { algorithm := Alg.SVD, normalize_poissonian_noise := true,
        output_dimension := some 2, navigation_mask := false, signal_mask := false,
        num_chunks := none, reproject := true, navChunks := [[2, 2]],
        sklearnInstalled := false, unfoldReturns := true, svdRaises := false,
        fitRaises := false, projectRaises := false }
      { data := DRef.base 1, unfolded4decomposition := false }).state.unfolded4decomposition
        = true ∧
     DEv.foldCall ∈ (decomposition
      { algorithm := Alg.SVD, normalize_poissonian_noise := true,
        output_dimension := some 2, navigation_mask := false, signal_mask := false,
        num_chunks := none, reproject := true, navChunks := [[2, 2]],
        sklearnInstalled := false, unfoldReturns := true, svdRaises := false,
        fitRaises := false, projectRaises := false }
      { data := DRef.base 1, unfolded4decomposition := false }).trace) :=
  ⟨rfl, decomposition_svd_fold_flag _ _ rfl rfl⟩

/-- Helper for C5: in the body, the SVD branch with a mask supplied exits
with NotImplementedError and never runs the svd computation or any block
streaming. -/
theorem decompBody_svd_mask (c : DecCfg) (s : DecState)
    (hm : c.navigation_mask = true ∨ c.signal_mask = true) :
    (decompBody Alg.SVD c s).2.1 = some PyErr.notImplementedError ∧
    DEv.svdCall ∉ (decompBody Alg.SVD c s).2.2 ∧
    DEv.learnStream ∉ (decompBody Alg.SVD c s).2.2 := by
  unfold decompBody
  by_cases hn : c.normalize_poissonian_noise = true <;>
    by_cases hu : c.unfoldReturns = true <;> simp_all

/-- C5 (amended): for every decomposition call with algorithm SVD and a
navigation or signal mask supplied, a NotImplementedError is raised, the
SVD factorization is never computed, no block streaming happens, nothing is
committed, and the data attribute is restored; however the raise is not the
first action of the SVD branch: the unfold step runs before the check (see
the counterexample theorem). -/
theorem decomposition_svd_mask_notimpl (c : DecCfg) (s : DecState)
    (halg : c.algorithm = Alg.SVD)
    (hm : c.navigation_mask = true ∨ c.signal_mask = true) :
    (decomposition c s).err = some PyErr.notImplementedError ∧
    DEv.svdCall ∉ (decomposition c s).trace ∧
    DEv.learnStream ∉ (decomposition c s).trace ∧
    (decomposition c s).committed = false ∧
    (decomposition c s).state.data = s.data := by
  rcases h : decompBody Alg.SVD c s with ⟨s1, err1, tr1⟩
  have hb := decompBody_svd_mask c s hm
  rw [h] at hb
  simp only at hb
  obtain ⟨he, hsv, hls⟩ := hb
  subst he
  simp +decide [decomposition, halg, h]
  exact ⟨hsv, hls⟩

/-- Counterexample for C5 as stated: with algorithm SVD, a signal mask, and
a signal that unfolds, the NotImplementedError is not raised before any
other work of the SVD branch touching the data attribute: the trace shows
the unfold call (which rebinds self.data to the reshaped array, lazy.py
line 967) runs before the mask check, and the matching fold runs on the
error path. -/
theorem decomposition_svd_mask_unfold_runs_first :
    (decomposition
      { algorithm := Alg.SVD, normalize_poissonian_noise := false,
        output_dimension := none, navigation_mask := false, signal_mask := true,
        num_chunks := none, reproject := true, navChunks := [[4]],
        sklearnInstalled := true, unfoldReturns := true, svdRaises := false,
        fitRaises := false, projectRaises := false }
      { data := DRef.base 0, unfolded4decomposition := false }).err
        = some PyErr.notImplementedError ∧
    (decomposition
      { algorithm := Alg.SVD, normalize_poissonian_noise := false,
        output_dimension := none, navigation_mask := false, signal_mask := true,
        num_chunks := none, reproject := true, navChunks := [[4]],
        sklearnInstalled := true, unfoldReturns := true, svdRaises := false,
        fitRaises := false, projectRaises := false }
      { data := DRef.base 0, unfolded4decomposition := false }).trace
        = [DEv.readData, DEv.unfoldCall, DEv.foldCall] := by
  constructor <;> rfl

/-- Witness for the amended C5 at a concrete input. -/
theorem decomposition_svd_mask_notimpl_witness :
    (({ algorithm := Alg.SVD, normalize_poissonian_noise := false,
        output_dimension := some 2, navigation_mask := true, signal_mask := false,
        num_chunks := none, reproject := true, navChunks := [[3]],
        sklearnInstalled := true, unfoldReturns := true, svdRaises := false,
        fitRaises := false, projectRaises := false } : DecCfg).algorithm = Alg.SVD) ∧
    ((decomposition
      { algorithm := Alg.SVD, normalize_poissonian_noise := false,
        output_dimension := some 2, navigation_mask := true, signal_mask := false,
        num_chunks := none, reproject := true, navChunks := [[3]],
        sklearnInstalled := true, unfoldReturns := true, svdRaises := false,
        fitRaises := false, projectRaises := false }
      { data := DRef.base 5, unfolded4decomposition := false }).err
        = some PyErr.notImplementedError ∧
     DEv.svdCall ∉ (decomposition
      { algorithm := Alg.SVD, normalize_poissonian_noise := false,
        output_dimension := some 2, navigation_mask := true, signal_mask := false,
        num_chunks := none, reproject := true, navChunks := [[3]],
        sklearnInstalled := true, unfoldReturns := true, svdRaises := false,
        fitRaises := false, projectRaises := false }
      { data := DRef.base 5, unfolded4decomposition := false }).trace ∧
     DEv.learnStream ∉ (decomposition
      { algorithm := Alg.SVD, normalize_poissonian_noise := false,
        output_dimension := some 2, navigation_mask := true, signal_mask := false,
        num_chunks := none, reproject := true, navChunks := [[3]],
        sklearnInstalled := true, unfoldReturns := true, svdRaises := false,
        fitRaises := false, projectRaises := false }
      { data := DRef.base 5, unfolded4decomposition := false }).trace ∧
     (decomposition
      { algorithm := Alg.SVD, normalize_poissonian_noise := false,
        output_dimension := some 2, navigation_mask := true, signal_mask := false,
        num_chunks := none, reproject := true, navChunks := [[3]],
        sklearnInstalled := true, unfoldReturns := true, svdRaises := false,
        fitRaises := false, projectRaises := false }
      { data := DRef.base 5, unfolded4decomposition := false }).committed = false ∧
     (decomposition
      { algorithm := Alg.SVD, normalize_poissonian_noise := false,
        output_dimension := some 2, navigation_mask := true, signal_mask := false,
        num_chunks := none, reproject := true, navChunks := [[3]],
        sklearnInstalled := true, unfoldReturns := true, svdRaises := false,
        fitRaises := false, projectRaises := false }
      { data := DRef.base 5, unfolded4decomposition := false }).state.data = DRef.base 5) :=
  ⟨rfl, decomposition_svd_mask_notimpl _ _ rfl (Or.inl rfl)⟩

/-- Counterexample for C4 as stated: blocksize 2, output_dimension 10 and
requested num_chunks 5 satisfy the adjustment condition (2 / 10 < 5), the
adjusted num_chunks is ceil(2 / 10) = 1, and the resulting batch of
blocksize * num_chunks = 2 flattened samples is smaller than
output_dimension = 10. -/
theorem adjust_num_chunks_small_block :
    (2 : Nat) < 5 * 10 ∧ adjustNumChunks 2 (some 10) (some 5) = 1 ∧
    2 * adjustNumChunks 2 (some 10) (some 5) < 10 := by decide

/-- C4 (amended): when output_dimension d is given, blocksize / d is
smaller than the requested num_chunks, and additionally the blocksize holds
at least d flattened samples, the adjustment reduces num_chunks (at or
below the request) while keeping blocksize * num_chunks at least d.
Without the extra hypothesis d less-or-equal blocksize the property fails
(see the counterexample theorem). -/
theorem adjust_num_chunks_batch_bound (b d nc : Nat)
    (hb : 1 ≤ b) (hd : 1 ≤ d) (hnc : 1 ≤ nc) (hcond : b < nc * d) (hbd : d ≤ b) :
    adjustNumChunks b (some d) (some nc) ≤ nc ∧
    d ≤ b * adjustNumChunks b (some d) (some nc) := by
  have hred : adjustNumChunks b (some d) (some nc) = ceilDiv b d := by
    simp only [adjustNumChunks, Option.getD_some]
    rw [if_pos ⟨hd, hcond⟩]
  have hq1 : 1 ≤ ceilDiv b d := by
    unfold ceilDiv
    rw [Nat.one_le_div_iff hd]
    omega
  have hq2 : ceilDiv b d ≤ nc := by
    unfold ceilDiv
    have hstep : (b + d - 1) / d < nc + 1 := by
      rw [Nat.div_lt_iff_lt_mul hd]
      have : (nc + 1) * d = nc * d + d := by ring
      omega
    omega
  rw [hred]
  refine ⟨hq2, ?_⟩
  calc d ≤ b := hbd
    _ = b * 1 := (Nat.mul_one b).symm
    _ ≤ b * ceilDiv b d := Nat.mul_le_mul_left b hq1

/-- Witness for the amended C4 at a concrete input: blocksize 25, requested
num_chunks 5, output_dimension 10. -/
theorem adjust_num_chunks_batch_bound_witness :
    1 ≤ 25 ∧ 1 ≤ 10 ∧ 1 ≤ 5 ∧ 25 < 5 * 10 ∧ 10 ≤ 25 ∧
    (adjustNumChunks 25 (some 10) (some 5) ≤ 5 ∧
     10 ≤ 25 * adjustNumChunks 25 (some 10) (some 5)) :=
  ⟨by decide, by decide, by decide, by decide, by decide,
   adjust_num_chunks_batch_bound 25 10 5 (by decide) (by decide) (by decide)
     (by decide) (by decide)⟩

/-! ### compute and the map engine -/

/-- C10: for every call to compute, the lazy data is materialized into an
in-memory array strictly before any backing file handle is closed (the
materialize event heads the trace and the close event, present exactly when
close_file is True, follows it), and on return the data attribute holds the
materialized array and the laziness flag is False. -/
theorem compute_materializes_before_close (close_file : Bool) (s : LazySigState) :
    (computeCall close_file s).1.data = DRef.materialized s.data ∧
    (computeCall close_file s).1.lazyFlag = false ∧
    (computeCall close_file s).2 =
      CEv.materializeEv :: (if close_file then [CEv.closeFileEv] else []) := by
  cases close_file <;> simp [computeCall]

/-- C8: for every call to the blockwise map engine with ragged=True and
inplace=True, a ValueError is raised before any rechunking, probing or
mapping of the data is attempted: the trace is empty and the data attribute
is untouched. -/
theorem map_iterate_ragged_inplace (c : MapCfg) (d : DRef)
    (hr : c.ragged = true) (hi : c.inplace = true) :
    _map_iterate c d =
      { data := d, err := some PyErr.valueError, trace := [] } := by
  simp [_map_iterate, hr, hi]

/-- Witness for C8 at a concrete input. -/
theorem map_iterate_ragged_inplace_witness :
    (({ ragged := true, inplace := true, chunkSpanSignal := true,
        lazyKwargsToRechunk := 0, autodetermine := true } : MapCfg).ragged = true) ∧
    _map_iterate
      { ragged := true, inplace := true, chunkSpanSignal := true,
        lazyKwargsToRechunk := 0, autodetermine := true } (DRef.base 7) =
      { data := DRef.base 7, err := some PyErr.valueError, trace := [] } :=
  ⟨rfl, map_iterate_ragged_inplace _ _ rfl rfl⟩

end HyperspyLazy
